import Mathlib

/-!
Shallow embedding of `src/project1.py` (advanced student management system).

Python dicts are modelled as association lists in insertion order:
assignment `d[k] = v` overwrites the entry in place when the key is present
and appends otherwise; `d.get(k)` returns the first (hence unique) entry.
Python floats are modelled as rationals, so representable numeric values
are preserved exactly.  Python's `list.sort` is a stable sort; it is
modelled by `List.insertionSort`, which is stable in the same sense.
A Python method that may raise mutates `self` only after its checks, so it
is embedded as a function returning the state after the call together with
an `Except` outcome: on an error the returned state is the unchanged input.
-/

namespace Project1

/-- Error taxonomy of the spec: `OutOfRangeError` is the Python
`AssertionError` from `Student.set_mark`, `DuplicateKeyError` the
`ValueError` from `Gradebook.add_student`. -/
inductive GBError
| outOfRange
| duplicateKey
deriving DecidableEq

/-- Python dict lookup `d.get(k)` on an association list. -/
def dget {κ α : Type} [BEq κ] (m : List (κ × α)) (k : κ) : Option α :=
(m.find? (fun p => p.1 == k)).map (fun p => p.2)

/-- Python dict assignment `d[k] = v`: overwrite in place when the key is
present, append otherwise. -/
def dset {κ α : Type} [BEq κ] (m : List (κ × α)) (k : κ) (v : α) : List (κ × α) :=
if m.any (fun p => p.1 == k) then
  m.map (fun p => if p.1 == k then (k, v) else p)
else m ++ [(k, v)]

/-- Python `str.strip()`: drop whitespace from both ends, modelled on the
character list (Lean's `String.trim` is extensionally the same but is not
kernel-reducible). -/
def pyStrip (s : String) : String :=
⟨((s.data.dropWhile Char.isWhitespace).reverse.dropWhile Char.isWhitespace).reverse⟩

/-- Python `str.lower()`: lower-case character by character. -/
def pyLower (s : String) : String :=
⟨s.data.map Char.toLower⟩

/-- `Student`: name, roll and a dict of subject → marks. -/
structure Student where
  name : String
  roll : Int
  marks : List (String × ℚ)
deriving DecidableEq

/-- `Student.__init__(name, roll, marks)`: strips the name
(`self.name = name.strip()`); `marks or {}` leaves the given dict. -/
def mkStudent (name : String) (roll : Int) (marks : List (String × ℚ)) : Student :=
{ name := pyStrip name, roll := roll, marks := marks }

/-- `Student.set_mark(subject, mark)`: `assert 0 <= mark <= 100` raises
before any mutation; on success stores `float(mark)` under
`subject.strip()`. -/
def set_mark (s : Student) (subject : String) (mark : ℚ) :
    Student × Except GBError Unit :=
if 0 ≤ mark ∧ mark ≤ 100 then
  ({ s with marks := dset s.marks (pyStrip subject) mark }, Except.ok ())
else (s, Except.error GBError.outOfRange)

/-- `sum(marks.values()) / len(marks)`: the arithmetic mean of the stored
values. -/
def meanMarks (s : Student) : ℚ :=
(s.marks.map (fun p => p.2)).sum / (s.marks.length : ℚ)

/-- `Student.get_average()`: `None` when `marks` is empty, otherwise
`sum(marks.values()) / len(marks)`. -/
def get_average (s : Student) : Option ℚ :=
if s.marks.isEmpty then none
else some (meanMarks s)

/-- One entry of the JSON snapshot: `Student.to_dict` produces
`{"name": ..., "roll": ..., "marks": ...}`; JSON round-trips each field
exactly in this model. -/
structure RecDoc where
  name : String
  roll : Int
  marks : List (String × ℚ)
deriving DecidableEq

/-- `Student.to_dict()`. -/
def to_dict (s : Student) : RecDoc :=
{ name := s.name, roll := s.roll, marks := s.marks }

/-- `Student.from_dict(d)`: calls the constructor, which strips the name. -/
def from_dict (d : RecDoc) : Student :=
mkStudent d.name d.roll d.marks

/-- `Gradebook`: `self.students`, a dict keyed by roll number. -/
structure Gradebook where
  students : List (Int × Student)
deriving DecidableEq

/-- The dict's values, `self.students.values()`, in insertion order. -/
def values (gb : Gradebook) : List Student :=
gb.students.map (fun p => p.2)

/-- `Gradebook.add_student(student)`: raises `ValueError` when the roll is
already a key, otherwise `self.students[student.roll] = student`. -/
def add_student (gb : Gradebook) (s : Student) : Gradebook × Except GBError Unit :=
if gb.students.any (fun p => p.1 == s.roll) then
  (gb, Except.error GBError.duplicateKey)
else ({ students := dset gb.students s.roll s }, Except.ok ())

/-- `Gradebook.get_student(roll)`. -/
def get_student (gb : Gradebook) (roll : Int) : Option Student :=
dget gb.students roll

/-- `Gradebook.delete_student(roll)`: `dict.pop` removes every trace of the
key and reports whether it was present. -/
def delete_student (gb : Gradebook) (roll : Int) : Gradebook × Bool :=
if gb.students.any (fun p => p.1 == roll) then
  ({ students := gb.students.filter (fun p => !(p.1 == roll)) }, true)
else (gb, false)

/-- `Gradebook.edit_student_name(roll, new_name)`: `False` when the roll is
absent, otherwise replaces the student's name by `new_name.strip()` in
place. -/
def edit_student_name (gb : Gradebook) (roll : Int) (newName : String) :
    Gradebook × Bool :=
match get_student gb roll with
| none => (gb, false)
| some s =>
    ({ students := dset gb.students roll { s with name := pyStrip newName } }, true)

/-- `b` occurs as a contiguous run at the head of `a` (Python
`str.startswith` on the character lists). -/
def startsWith : List Char → List Char → Bool
| _, [] => true
| [], _ :: _ => false
| a :: as, b :: bs => a == b && startsWith as bs

/-- Python substring containment `q in hay`, on character lists. -/
def hasSub : List Char → List Char → Bool
| [], q => q.isEmpty
| a :: t, q => startsWith (a :: t) q || hasSub t q

/-- `Gradebook.search_by_name(name_substring)`: lower-cased, stripped
substring match over the students in dict order. -/
def search_by_name (gb : Gradebook) (nameSubstring : String) : List Student :=
let q := pyLower (pyStrip nameSubstring)
(values gb).filter (fun s => hasSub (pyLower s.name).toList q.toList)

/-- The sort key of `Gradebook.list_all`: ascending roll. -/
def rollLE (a b : Student) : Prop := a.roll ≤ b.roll

instance : DecidableRel rollLE := fun a b => inferInstanceAs (Decidable (a.roll ≤ b.roll))

/-- `Gradebook.list_all()`: `sorted(self.students.values(), key=roll)`,
a stable ascending sort. -/
def list_all (gb : Gradebook) : List Student :=
(values gb).insertionSort rollLE

/-- `Gradebook.class_average()`: the mean of the non-`None` student
averages, or `None` when there are none. -/
def class_average (gb : Gradebook) : Option ℚ :=
let avgs := ((values gb).map get_average).reduceOption
if avgs.isEmpty then none else some (avgs.sum / avgs.length)

/-- The ranking score of `Gradebook.top_n_students`:
`s.get_average() or 0.0`, which is `0.0` exactly when the average is
`None` or `0.0`, i.e. the average when present and `0.0` otherwise. -/
def scoreOf (s : Student) : ℚ :=
match get_average s with
| none => 0
| some a => a

/-- The sort key of `top_n_students`: descending score
(`sort(key=score, reverse=True)`). -/
def scoreGE (a b : Student × ℚ) : Prop := b.2 ≤ a.2

instance : DecidableRel scoreGE := fun a b => inferInstanceAs (Decidable (b.2 ≤ a.2))

/-- `Gradebook.top_n_students(n)`: score every student, stable-sort the
pairs descending by score, keep the first `n`. -/
def top_n_students (gb : Gradebook) (n : Nat) : List (Student × ℚ) :=
let scored := (values gb).map (fun s => (s, scoreOf s))
(scored.insertionSort scoreGE).take n

/-- The five grade buckets of `Gradebook.grade_distribution`. -/
inductive Grade
| A
| B
| C
| D
| F
deriving DecidableEq

/-- The bucket the loop body of `grade_distribution` assigns a student. -/
def gradeOf (s : Student) : Grade :=
match get_average s with
| none => Grade.F
| some avg =>
    if avg ≥ 80 then Grade.A
    else if avg ≥ 60 then Grade.B
    else if avg ≥ 50 then Grade.C
    else if avg ≥ 40 then Grade.D
    else Grade.F

/-- The bucket counters of `grade_distribution`. -/
structure GradeDist where
  A : Nat
  B : Nat
  C : Nat
  D : Nat
  F : Nat
deriving DecidableEq

/-- One iteration of the `grade_distribution` loop: bump the student's
bucket. -/
def bump (d : GradeDist) (s : Student) : GradeDist :=
match gradeOf s with
| Grade.A => { d with A := d.A + 1 }
| Grade.B => { d with B := d.B + 1 }
| Grade.C => { d with C := d.C + 1 }
| Grade.D => { d with D := d.D + 1 }
| Grade.F => { d with F := d.F + 1 }

/-- `Gradebook.grade_distribution()`: start from all-zero buckets and
fold the loop over the students in dict order. -/
def grade_distribution (gb : Gradebook) : GradeDist :=
(values gb).foldl bump { A := 0, B := 0, C := 0, D := 0, F := 0 }

/-- `Gradebook.save_to_json`: the list of `to_dict` snapshots of
`list_all()` (ascending roll), written as one JSON document. -/
def save_to_json (gb : Gradebook) : List RecDoc :=
(list_all gb).map to_dict

/-- `Gradebook.load_from_json`: for each parsed entry, build the student
with `from_dict` and assign `self.students[s.roll] = s`. -/
def load_from_json (gb : Gradebook) (data : List RecDoc) : Gradebook :=
data.foldl
  (fun g d =>
    let s := from_dict d
    { students := dset g.students s.roll s }) gb

/-- One CSV cell as `csv.writer` receives it from `export_to_csv`. -/
inductive Cell
| str (s : String)
| int (n : Int)
| num (q : ℚ)
| avg2 (q : ℚ)
| empty
deriving DecidableEq

/-- Python string comparison `a <= b`: lexicographic on code points. -/
def lexLE : List Char → List Char → Bool
| [], _ => true
| _ :: _, [] => false
| a :: as, b :: bs =>
    if a.toNat = b.toNat then lexLE as bs else Nat.blt a.toNat b.toNat

/-- Python `<=` on strings, as `sorted` uses it. -/
def subjLE (a b : String) : Prop := lexLE a.data b.data = true

instance : DecidableRel subjLE :=
fun a b => inferInstanceAs (Decidable (lexLE a.data b.data = true))

/-- The subject columns of `export_to_csv`: the sorted set of all subject
names across every student's marks (`sorted(set(...))`). -/
def csvSubjects (gb : Gradebook) : List String :=
(((values gb).map (fun s => s.marks.map (fun p => p.1))).flatten.dedup).insertionSort subjLE

/-- One data row of `export_to_csv`: roll, name, each subject's mark or an
empty cell, then the average rendered to two decimals or an empty cell. -/
def csvRow (subjects : List String) (s : Student) : List Cell :=
[Cell.int s.roll, Cell.str s.name]
  ++ subjects.map (fun sub =>
      match dget s.marks sub with
      | some q => Cell.num q
      | none => Cell.empty)
  ++ [match get_average s with
      | some a => Cell.avg2 a
      | none => Cell.empty]

/-- `Gradebook.export_to_csv`: header row then one row per student of
`list_all()`. -/
def export_to_csv (gb : Gradebook) : List (List Cell) :=
let subjects := csvSubjects gb
([Cell.str "roll", Cell.str "name"] ++ subjects.map Cell.str ++ [Cell.str "average"])
  :: (list_all gb).map (csvRow subjects)

/-- The dict invariants `Gradebook` maintains: keys are distinct and each
entry is stored under its student's roll. -/
def WF (gb : Gradebook) : Prop :=
(gb.students.map (fun p => p.1)).Nodup ∧ ∀ p ∈ gb.students, p.1 = p.2.roll

/-! ### Association-list (Python dict) lemmas -/

theorem find?_map_overwrite {κ α : Type} [BEq κ] [LawfulBEq κ]
    (m : List (κ × α)) (k : κ) (v : α) (h : m.any (fun p => p.1 == k) = true) :
    (m.map (fun p => if p.1 == k then (k, v) else p)).find? (fun p => p.1 == k)
      = some (k, v) := by
  induction m with
  | nil => simp at h
  | cons a t ih =>
      by_cases hk : (a.1 == k) = true
      · simp [List.find?, hk]
      · simp only [List.any_cons, hk, Bool.false_or] at h
        simp [List.find?, hk, ih h]

theorem find?_eq_none_of_not_any {κ α : Type} [BEq κ]
    (m : List (κ × α)) (k : κ) (h : m.any (fun p => p.1 == k) = false) :
    m.find? (fun p => p.1 == k) = none := by
  rw [List.find?_eq_none]
  intro x hx hpx
  have ht : m.any (fun p => p.1 == k) = true := List.any_eq_true.mpr ⟨x, hx, hpx⟩
  rw [h] at ht
  exact Bool.false_ne_true ht

/-- Assigning `d[k] = v` makes a subsequent `d.get(k)` return `v`. -/
theorem dget_dset_self {κ α : Type} [BEq κ] [LawfulBEq κ]
    (m : List (κ × α)) (k : κ) (v : α) : dget (dset m k v) k = some v := by
  unfold dset
  by_cases h : m.any (fun p => p.1 == k) = true
  · rw [if_pos h]
    unfold dget
    rw [find?_map_overwrite m k v h]
    rfl
  · rw [if_neg h]
    have h' : m.any (fun p => p.1 == k) = false := by
      cases hb : m.any (fun p => p.1 == k) with
      | false => rfl
      | true => exact absurd hb h
    unfold dget
    rw [List.find?_append, find?_eq_none_of_not_any m k h']
    simp [List.find?]

/-- A dict is never empty after an assignment. -/
theorem dset_ne_nil {κ α : Type} [BEq κ]
    (m : List (κ × α)) (k : κ) (v : α) : dset m k v ≠ [] := by
  unfold dset
  by_cases h : m.any (fun p => p.1 == k) = true
  · rw [if_pos h]
    cases m with
    | nil => simp at h
    | cons a t => simp
  · rw [if_neg h]
    simp

/-! ### Claim theorems -/

/-- Claim C2: for every record and every score `m` outside `[0,100]`,
`set_mark` fails with `OutOfRangeError` and returns the record unchanged,
so the invalid score is never stored in `marks`. -/
theorem setMark_out_of_range (s : Student) (subject : String) (m : ℚ)
    (h : m < 0 ∨ 100 < m) :
    set_mark s subject m = (s, Except.error GBError.outOfRange) := by
  unfold set_mark
  rw [if_neg]
  rintro ⟨h0, h1⟩
  rcases h with h | h
  · exact absurd h0 (not_le.mpr h)
  · exact absurd h1 (not_le.mpr h)

/-- Claim C2 witness at score 101. -/
theorem setMark_out_of_range_witness :
    set_mark (mkStudent "Amy" 1 [("Math", 50)]) "Physics" 101
      = (mkStudent "Amy" 1 [("Math", 50)], Except.error GBError.outOfRange) :=
  setMark_out_of_range (mkStudent "Amy" 1 [("Math", 50)]) "Physics" 101
    (Or.inr (by norm_num))

/-- Claim C7: for every record, subject, and score `m` in `[0,100]`,
`set_mark` succeeds, stores the value under the trimmed subject name so
that reading that subject returns exactly `m`, and afterwards `average()`
is the arithmetic mean of all stored values; for any record with empty
marks, `average()` is absent. -/
theorem setMark_in_range (s : Student) (subject : String) (m : ℚ)
    (h0 : 0 ≤ m) (h1 : m ≤ 100) :
    (set_mark s subject m).2 = Except.ok ()
      ∧ dget (set_mark s subject m).1.marks (pyStrip subject) = some m
      ∧ get_average (set_mark s subject m).1
          = some (meanMarks (set_mark s subject m).1)
      ∧ (∀ t : Student, t.marks = [] → get_average t = none) := by
  have hcond : (0 ≤ m ∧ m ≤ 100) := ⟨h0, h1⟩
  refine ⟨?_, ?_, ?_, ?_⟩
  · unfold set_mark
    rw [if_pos hcond]
  · unfold set_mark
    rw [if_pos hcond]
    exact dget_dset_self s.marks (pyStrip subject) m
  · have hne : (set_mark s subject m).1.marks ≠ [] := by
      unfold set_mark
      rw [if_pos hcond]
      exact dset_ne_nil s.marks (pyStrip subject) m
    unfold get_average
    rw [if_neg (by simpa [List.isEmpty_iff] using hne)]
  · intro t ht
    unfold get_average
    rw [if_pos (by simpa [List.isEmpty_iff] using ht)]

/-- Claim C7 witness: storing 73 for " Math " on a fresh record. -/
theorem setMark_in_range_witness :
    (set_mark (mkStudent "Amy" 1 []) " Math " 73).2 = Except.ok ()
      ∧ dget (set_mark (mkStudent "Amy" 1 []) " Math " 73).1.marks (pyStrip " Math ") = some 73
      ∧ get_average (set_mark (mkStudent "Amy" 1 []) " Math " 73).1
          = some (meanMarks (set_mark (mkStudent "Amy" 1 []) " Math " 73).1)
      ∧ (∀ t : Student, t.marks = [] → get_average t = none) :=
  setMark_in_range (mkStudent "Amy" 1 []) " Math " 73 (by norm_num) (by norm_num)

/-- Claim C3: `add_student` fails with `DuplicateKeyError` and leaves the
roster unchanged when the roll is already present, and appends the new
entry when it is absent. -/
theorem addStudent_spec (gb : Gradebook) (s : Student) :
    add_student gb s =
      if s.roll ∈ gb.students.map (fun p => p.1)
      then (gb, Except.error GBError.duplicateKey)
      else ({ students := gb.students ++ [(s.roll, s)] }, Except.ok ()) := by
  by_cases h : gb.students.any (fun p => p.1 == s.roll) = true
  · have hmem : s.roll ∈ gb.students.map (fun p => p.1) := by
      rcases List.any_eq_true.mp h with ⟨p, hp, hpe⟩
      exact List.mem_map.mpr ⟨p, hp, eq_of_beq hpe⟩
    rw [if_pos hmem]
    unfold add_student
    rw [if_pos h]
  · have hmem : s.roll ∉ gb.students.map (fun p => p.1) := by
      intro hc
      rcases List.mem_map.mp hc with ⟨p, hp, hpe⟩
      exact h (List.any_eq_true.mpr ⟨p, hp, beq_iff_eq.mpr hpe⟩)
    rw [if_neg hmem]
    unfold add_student
    rw [if_neg h]
    unfold dset
    rw [if_neg h]

/-- Claim C10: a search query that is empty after trimming matches every
student, so `search_by_name` returns the whole roster. -/
theorem searchByName_empty_query (gb : Gradebook) (q : String)
    (h : pyStrip q = "") :
    search_by_name gb q = values gb := by
  unfold search_by_name
  rw [h]
  refine List.filter_eq_self.mpr ?_
  intro s _
  show hasSub (pyLower s.name).toList (pyLower "").toList = true
  have hq : (pyLower "").toList = [] := rfl
  rw [hq]
  cases hl : (pyLower s.name).toList with
  | nil => rfl
  | cons a t => rfl

/-- The `sample_data()` roster of the source: three students added to a
fresh gradebook. -/
def sample_data : Gradebook :=
(add_student
  ((add_student
    ((add_student { students := [] }
        (mkStudent "Aman Koli" 101 [("Math", 85), ("Physics", 78), ("Chemistry", 90)])).1)
    (mkStudent "Bala Rao" 102 [("Math", 65), ("Physics", 70)])).1)
  (mkStudent "Chitra Sen" 103 [("Math", 92), ("English", 88), ("Biology", 85)])).1

/-- Claim C10 witness: a whitespace-only query on the sample roster. -/
theorem searchByName_empty_query_witness :
    search_by_name sample_data "  " = values sample_data :=
  searchByName_empty_query sample_data "  " (by decide)

/-- Claim C9 counterexample: `create` accepts a record whose trimmed name
is the empty string — the roster then holds a record with an empty trimmed
name, so no non-emptiness invariant is enforced. -/
theorem create_accepts_empty_trimmed_name :
    (add_student { students := [] } (mkStudent " " 7 [])).2 = Except.ok ()
      ∧ ((add_student { students := [] } (mkStudent " " 7 [])).1.students.map
            (fun p => pyStrip p.2.name)) = [""] := by
  constructor
  · rfl
  · rfl

/-- Claim C9 amended: record construction and `renameStudent` always store
the trimmed input name, but neither enforces non-emptiness of the result. -/
theorem names_trimmed_not_validated (name : String) (roll : Int)
    (marks : List (String × ℚ)) (gb : Gradebook) (r : Int) (newName : String)
    (s : Student) (h : get_student gb r = some s) :
    (mkStudent name roll marks).name = pyStrip name
      ∧ (edit_student_name gb r newName).2 = true
      ∧ get_student (edit_student_name gb r newName).1 r
          = some { s with name := pyStrip newName } := by
  refine ⟨rfl, ?_, ?_⟩
  · unfold edit_student_name
    rw [h]
  · unfold edit_student_name
    rw [h]
    exact dget_dset_self gb.students r { s with name := pyStrip newName }

/-- Claim C9 amended witness: renaming roll 101 of the sample roster to a
blank string stores the empty name. -/
theorem names_trimmed_not_validated_witness :
    (mkStudent "  Joe " 3 []).name = pyStrip "  Joe "
      ∧ (edit_student_name sample_data 101 " ").2 = true
      ∧ get_student (edit_student_name sample_data 101 " ").1 101
          = some { mkStudent "Aman Koli" 101
                    [("Math", 85), ("Physics", 78), ("Chemistry", 90)] with
                   name := pyStrip " " } :=
  names_trimmed_not_validated "  Joe " 3 [] sample_data 101 " "
    (mkStudent "Aman Koli" 101 [("Math", 85), ("Physics", 78), ("Chemistry", 90)])
    (by decide)

/-- Folding the `grade_distribution` loop counts, per bucket, the students
whose `gradeOf` is that bucket. -/
theorem foldl_bump_count (l : List Student) (d : GradeDist) :
    l.foldl bump d =
      { A := d.A + (l.map gradeOf).count Grade.A,
        B := d.B + (l.map gradeOf).count Grade.B,
        C := d.C + (l.map gradeOf).count Grade.C,
        D := d.D + (l.map gradeOf).count Grade.D,
        F := d.F + (l.map gradeOf).count Grade.F } := by
  induction l generalizing d with
  | nil => simp
  | cons s t ih =>
      rw [List.foldl_cons, ih]
      cases hg : gradeOf s <;>
        simp [bump, hg, List.count_cons, GradeDist.mk.injEq] <;> omega

/-- Every grade is one of the five buckets, so the five counts of a list of
grades sum to its length. -/
theorem count_grades_sum (gl : List Grade) :
    gl.count Grade.A + gl.count Grade.B + gl.count Grade.C + gl.count Grade.D
        + gl.count Grade.F = gl.length := by
  induction gl with
  | nil => simp
  | cons g t ih => cases g <;> simp [List.count_cons] <;> omega

/-- Modelled from the spec's threshold table, for comparison with the
code's bucket assignment: A: avg ≥ 80, B: 60 ≤ avg < 80, C: 50 ≤ avg < 60,
D: 40 ≤ avg < 50, F: avg < 40 or absent. -/
def bucketSpec (oa : Option ℚ) : Grade :=
match oa with
| none => Grade.F
| some a =>
    if 80 ≤ a then Grade.A
    else if 60 ≤ a ∧ a < 80 then Grade.B
    else if 50 ≤ a ∧ a < 60 then Grade.C
    else if 40 ≤ a ∧ a < 50 then Grade.D
    else Grade.F

/-- The code's cascading `elif` thresholds coincide with the spec's
two-sided bucket intervals. -/
theorem bucket_eq (a : ℚ) :
    (if a ≥ 80 then Grade.A
     else if a ≥ 60 then Grade.B
     else if a ≥ 50 then Grade.C
     else if a ≥ 40 then Grade.D
     else Grade.F)
      = (if 80 ≤ a then Grade.A
         else if 60 ≤ a ∧ a < 80 then Grade.B
         else if 50 ≤ a ∧ a < 60 then Grade.C
         else if 40 ≤ a ∧ a < 50 then Grade.D
         else Grade.F) := by
  by_cases h80 : 80 ≤ a
  · simp [ge_iff_le, h80]
  · by_cases h60 : 60 ≤ a
    · simp [ge_iff_le, h80, h60, not_le.mp h80]
    · by_cases h50 : 50 ≤ a
      · simp [ge_iff_le, h80, h60, h50, not_le.mp h60]
      · by_cases h40 : 40 ≤ a
        · simp [ge_iff_le, h80, h60, h50, h40, not_le.mp h50]
        · simp [ge_iff_le, h80, h60, h50, h40]

/-- Claim C4: `grade_distribution` assigns each record exactly one of the
five buckets by the spec's thresholds on its average (absence falls in F),
each counter counts exactly the records of its bucket (so all five are
present and zero-filled), the counts sum to the roster's size, and the
empty roster yields all zeros. -/
theorem gradeDistribution_spec (gb : Gradebook) :
    grade_distribution gb =
      { A := ((values gb).map gradeOf).count Grade.A,
        B := ((values gb).map gradeOf).count Grade.B,
        C := ((values gb).map gradeOf).count Grade.C,
        D := ((values gb).map gradeOf).count Grade.D,
        F := ((values gb).map gradeOf).count Grade.F }
    ∧ (∀ s : Student, gradeOf s = bucketSpec (get_average s))
    ∧ (grade_distribution gb).A + (grade_distribution gb).B
        + (grade_distribution gb).C + (grade_distribution gb).D
        + (grade_distribution gb).F = gb.students.length
    ∧ grade_distribution { students := [] }
        = { A := 0, B := 0, C := 0, D := 0, F := 0 } := by
  refine ⟨?_, ?_, ?_, rfl⟩
  · unfold grade_distribution
    rw [foldl_bump_count]
    simp
  · intro s
    unfold gradeOf bucketSpec
    cases hg : get_average s with
    | none => rfl
    | some a =>
        dsimp only
        exact bucket_eq a
  · unfold grade_distribution
    rw [foldl_bump_count]
    have h := count_grades_sum ((values gb).map gradeOf)
    simp only [List.length_map] at h ⊢
    simpa [values] using h

/-- The records of a roster carrying at least one mark. -/
def studentsWithMarks (gb : Gradebook) : List Student :=
(values gb).filter (fun s => !s.marks.isEmpty)

/-- Following the spec's words, for comparison with `class_average`: the
arithmetic mean of the averages of exactly the records that have at least
one mark, absent when no record has any. -/
def classAverageSpec (gb : Gradebook) : Option ℚ :=
let l := (studentsWithMarks gb).map meanMarks
if l.isEmpty then none else some (l.sum / (l.length : ℚ))

/-- Dropping the `None` averages is the same as averaging only the records
with marks. -/
theorem reduceOption_map_get_average (l : List Student) :
    (l.map get_average).reduceOption
      = (l.filter (fun s => !s.marks.isEmpty)).map meanMarks := by
  induction l with
  | nil => rfl
  | cons s t ih =>
      by_cases h : s.marks.isEmpty
      · simp [get_average, h, ih]
      · simp [get_average, h, ih]

/-- Claim C5: `class_average` is the arithmetic mean of the averages of
exactly the records with at least one mark — records with empty marks are
excluded, not counted as zero — and is absent precisely when no record has
any marks. -/
theorem classAverage_spec (gb : Gradebook) :
    class_average gb = classAverageSpec gb
    ∧ (class_average gb = none ↔ ∀ s ∈ values gb, s.marks = []) := by
  have key := reduceOption_map_get_average (values gb)
  constructor
  · simp only [class_average, classAverageSpec, studentsWithMarks]
    rw [key]
  · simp only [class_average]
    rw [key]
    have hmapE : (((values gb).filter (fun s => !s.marks.isEmpty)).map meanMarks).isEmpty
          = ((values gb).filter (fun s => !s.marks.isEmpty)).isEmpty := by
      cases (values gb).filter (fun s => !s.marks.isEmpty) <;> rfl
    rw [hmapE]
    by_cases he : ((values gb).filter (fun s => !s.marks.isEmpty)).isEmpty
    · rw [if_pos he]
      constructor
      · intro _ s hs
        rw [List.isEmpty_iff, List.filter_eq_nil_iff] at he
        have := he s hs
        simpa using this
      · intro _
        rfl
    · rw [if_neg he]
      constructor
      · intro hc
        exact absurd hc (by simp)
      · intro hall
        exfalso
        apply he
        rw [List.isEmpty_iff, List.filter_eq_nil_iff]
        intro s hs
        simp [hall s hs]

instance : IsTotal (Student × ℚ) scoreGE :=
⟨fun a b => le_total b.2 a.2⟩

instance : IsTrans (Student × ℚ) scoreGE :=
⟨fun _ _ _ hab hbc => le_trans hbc hab⟩

instance : IsTotal Student rollLE :=
⟨fun a b => le_total a.roll b.roll⟩

instance : IsTrans Student rollLE :=
⟨fun _ _ _ hab hbc => le_trans hab hbc⟩

/-- Claim C6: `top_n_students` scores every record — its average when it
has marks and 0.0 otherwise, so a markless record ranks with 0.0 instead of
being excluded — sorts the (record, score) pairs descending by score, and
returns the first `n` of them. -/
theorem topN_spec (gb : Gradebook) (n : Nat) :
    (∀ s : Student, scoreOf s = if s.marks = [] then 0 else meanMarks s)
    ∧ (∃ l : List (Student × ℚ),
        l.Perm ((values gb).map (fun s => (s, scoreOf s)))
        ∧ l.Sorted scoreGE
        ∧ top_n_students gb n = l.take n)
    ∧ (top_n_students gb n).length = min n gb.students.length := by
  refine ⟨?_, ⟨((values gb).map (fun s => (s, scoreOf s))).insertionSort scoreGE,
    List.perm_insertionSort scoreGE _, List.sorted_insertionSort scoreGE _, rfl⟩, ?_⟩
  · intro s
    by_cases h : s.marks = []
    · simp [scoreOf, get_average, h]
    · simp [scoreOf, get_average, h, List.isEmpty_iff]
  · simp only [top_n_students]
    rw [List.length_take]
    have hlen : (((values gb).map (fun s => (s, scoreOf s))).insertionSort scoreGE).length
        = gb.students.length := by
      rw [(List.perm_insertionSort scoreGE _).length_eq, List.length_map,
        values, List.length_map]
    rw [hlen]

/-- Code-point lexicographic comparison is total. -/
theorem lexLE_total : ∀ a b : List Char, lexLE a b = true ∨ lexLE b a = true
| [], _ => Or.inl rfl
| _ :: _, [] => Or.inr rfl
| a :: as, b :: bs => by
    by_cases h : a.toNat = b.toNat
    · rcases lexLE_total as bs with ih | ih
      · exact Or.inl (by simp [lexLE, h, ih])
      · exact Or.inr (by simp [lexLE, h.symm, ih])
    · rcases Nat.lt_or_ge a.toNat b.toNat with hlt | hge
      · exact Or.inl (by simp [lexLE, h, Nat.blt_eq, hlt])
      · have hgt : b.toNat < a.toNat := lt_of_le_of_ne hge (fun e => h e.symm)
        exact Or.inr (by simp [lexLE, Ne.symm h, Nat.blt_eq, hgt])

/-- Code-point lexicographic comparison is transitive. -/
theorem lexLE_trans : ∀ a b c : List Char,
    lexLE a b = true → lexLE b c = true → lexLE a c = true
| [], _, _ => fun _ _ => rfl
| _ :: _, [], _ => fun h _ => by simp [lexLE] at h
| _ :: _, _ :: _, [] => fun _ h => by simp [lexLE] at h
| a :: as, b :: bs, c :: cs => fun h1 h2 => by
    simp only [lexLE] at h1 h2 ⊢
    by_cases hab : a.toNat = b.toNat
    · rw [if_pos hab] at h1
      by_cases hbc : b.toNat = c.toNat
      · rw [if_pos hbc] at h2
        rw [if_pos (hab.trans hbc)]
        exact lexLE_trans as bs cs h1 h2
      · rw [if_neg hbc] at h2
        have hlt : b.toNat < c.toNat := by
          rw [Nat.blt_eq] at h2
          exact h2
        have hac : a.toNat < c.toNat := hab ▸ hlt
        rw [if_neg (Nat.ne_of_lt hac), Nat.blt_eq]
        exact hac
    · rw [if_neg hab] at h1
      have hlt1 : a.toNat < b.toNat := by
        rw [Nat.blt_eq] at h1
        exact h1
      by_cases hbc : b.toNat = c.toNat
      · have hac : a.toNat < c.toNat := hbc ▸ hlt1
        rw [if_neg (Nat.ne_of_lt hac), Nat.blt_eq]
        exact hac
      · rw [if_neg hbc] at h2
        have hlt2 : b.toNat < c.toNat := by
          rw [Nat.blt_eq] at h2
          exact h2
        have hac : a.toNat < c.toNat := lt_trans hlt1 hlt2
        rw [if_neg (Nat.ne_of_lt hac), Nat.blt_eq]
        exact hac

instance : IsTotal String subjLE :=
⟨fun a b => lexLE_total a.data b.data⟩

instance : IsTrans String subjLE :=
⟨fun a b c => lexLE_trans a.data b.data c.data⟩

/-- Claim C8: `export_to_csv` emits the header `roll, name, <subjects…>,
average` with the subject columns the sorted deduplicated union of all
subject names, then one data row per record in ascending-roll order; each
data row carries the roll, the name, per subject the record's mark or an
empty cell, and finally the average rendered to two decimals or an empty
cell (see `csvRow`). -/
theorem exportTable_spec (gb : Gradebook) :
    (∃ l : List Student, l.Perm (values gb) ∧ l.Sorted rollLE ∧
      export_to_csv gb =
        ([Cell.str "roll", Cell.str "name"] ++ (csvSubjects gb).map Cell.str
            ++ [Cell.str "average"])
          :: l.map (csvRow (csvSubjects gb)))
    ∧ (csvSubjects gb).Sorted subjLE
    ∧ (csvSubjects gb).Nodup
    ∧ (∀ x, x ∈ csvSubjects gb
        ↔ ∃ s, s ∈ values gb ∧ x ∈ s.marks.map (fun p => p.1)) := by
  refine ⟨⟨list_all gb, List.perm_insertionSort rollLE _,
      List.sorted_insertionSort rollLE _, rfl⟩, ?_, ?_, ?_⟩
  · exact List.sorted_insertionSort subjLE _
  · exact ((List.perm_insertionSort subjLE _).nodup_iff).mpr (List.nodup_dedup _)
  · intro x
    simp only [csvSubjects, List.mem_insertionSort, List.mem_dedup,
      List.mem_flatten, List.mem_map]
    constructor
    · rintro ⟨ml, ⟨s, hs, rfl⟩, hx⟩
      rcases List.mem_map.mp hx with ⟨p, hp, rfl⟩
      exact ⟨s, hs, p, hp, rfl⟩
    · rintro ⟨s, hs, p, hp, rfl⟩
      exact ⟨s.marks.map (fun p => p.1), ⟨s, hs, rfl⟩, List.mem_map_of_mem _ hp⟩

/-- `from_dict` inverts `to_dict` on records whose stored name is already
stripped (as the constructor guarantees). -/
theorem from_dict_to_dict (s : Student) (h : pyStrip s.name = s.name) :
    from_dict (to_dict s) = s := by
  cases s with
  | mk n r m =>
      have h' : pyStrip n = n := h
      show Student.mk (pyStrip n) r m = Student.mk n r m
      rw [h']

/-- With nodup keys, `d.get(k)` returns `v` exactly when the pair `(k, v)`
is an entry. -/
theorem dget_eq_some_iff {κ α : Type} [BEq κ] [LawfulBEq κ]
    (m : List (κ × α)) (h : (m.map (fun p => p.1)).Nodup) (k : κ) (v : α) :
    dget m k = some v ↔ (k, v) ∈ m := by
  induction m with
  | nil => simp [dget]
  | cons a t ih =>
      rw [List.map_cons, List.nodup_cons] at h
      by_cases hk : (a.1 == k) = true
      · have hk' : a.1 = k := eq_of_beq hk
        have hfind : (a :: t).find? (fun p => p.1 == k) = some a := by
          rw [List.find?_cons, hk]
        unfold dget
        rw [hfind]
        show some a.2 = some v ↔ (k, v) ∈ a :: t
        constructor
        · intro he
          have ha : a = (k, v) := by
            cases a with
            | mk a1 a2 =>
                simp only [Option.some.injEq] at he
                simp only [Prod.mk.injEq]
                exact ⟨hk', he⟩
          rw [← ha]
          exact List.mem_cons_self a t
        · intro hm
          rcases List.mem_cons.mp hm with he | hm
          · rw [← he]
          · exfalso
            apply h.1
            rw [hk']
            exact List.mem_map.mpr ⟨(k, v), hm, rfl⟩
      · have hkf : (a.1 == k) = false := by
          cases hb : (a.1 == k) with
          | false => rfl
          | true => exact absurd hb hk
        have hfind : (a :: t).find? (fun p => p.1 == k) = t.find? (fun p => p.1 == k) := by
          rw [List.find?_cons, hkf]
        have hd : dget (a :: t) k = dget t k := by
          unfold dget
          rw [hfind]
        rw [hd, ih h.2]
        constructor
        · exact fun hm => List.mem_cons_of_mem a hm
        · intro hm
          rcases List.mem_cons.mp hm with he | hm
          · exfalso
            apply hk
            rw [← he]
            exact beq_self_eq_true k
          · exact hm

/-- `d.get(k)` misses exactly when `k` is not a key. -/
theorem dget_eq_none_iff {κ α : Type} [BEq κ] [LawfulBEq κ]
    (m : List (κ × α)) (k : κ) :
    dget m k = none ↔ k ∉ m.map (fun p => p.1) := by
  unfold dget
  rw [Option.map_eq_none', List.find?_eq_none]
  constructor
  · intro hall hc
    rcases List.mem_map.mp hc with ⟨p, hp, hpe⟩
    exact hall p hp (beq_iff_eq.mpr hpe)
  · intro hc p hp hpe
    exact hc (List.mem_map.mpr ⟨p, hp, eq_of_beq hpe⟩)

/-- On nodup-keyed dicts, lookup only depends on the set of entries. -/
theorem dget_perm {κ α : Type} [BEq κ] [LawfulBEq κ] {m m' : List (κ × α)}
    (hp : m.Perm m') (h : (m.map (fun p => p.1)).Nodup) (k : κ) :
    dget m k = dget m' k := by
  have h' : (m'.map (fun p => p.1)).Nodup := ((hp.map (fun p => p.1)).nodup_iff).mp h
  cases hd : dget m' k with
  | none =>
      rw [dget_eq_none_iff] at hd ⊢
      intro hc
      exact hd (((hp.map (fun p => p.1)).mem_iff).mp hc)
  | some v =>
      exact (dget_eq_some_iff m h k v).mpr
        ((hp.mem_iff).mpr ((dget_eq_some_iff m' h' k v).mp hd))

/-- Loading a document whose rolls are distinct and absent from the target
gradebook appends one entry per document record, in order. -/
theorem load_from_json_fresh (ds : List RecDoc) :
    ∀ g : Gradebook,
    ((ds.map (fun d => d.roll)).Nodup) →
    (∀ d ∈ ds, ∀ p ∈ g.students, p.1 ≠ d.roll) →
    (load_from_json g ds).students
      = g.students ++ ds.map (fun d => (d.roll, from_dict d)) := by
  induction ds with
  | nil =>
      intro g _ _
      simp [load_from_json]
  | cons d ds ih =>
      intro g hnd hfresh
      have hany : g.students.any (fun p => p.1 == (from_dict d).roll) = false := by
        rw [← Bool.not_eq_true, List.any_eq_true]
        rintro ⟨p, hp, hpe⟩
        exact hfresh d (List.mem_cons_self d ds) p hp (eq_of_beq hpe)
      have step : load_from_json g (d :: ds)
          = load_from_json
              { students := dset g.students (from_dict d).roll (from_dict d) } ds := rfl
      have hset : dset g.students (from_dict d).roll (from_dict d)
          = g.students ++ [(d.roll, from_dict d)] := by
        unfold dset
        rw [if_neg (by simp [hany])]
        rfl
      rw [List.map_cons, List.nodup_cons] at hnd
      rw [step, ih _ hnd.2 ?fresh, hset, List.append_assoc, List.map_cons]
      · rfl
      case fresh =>
        intro d' hd' p hp
        rw [hset] at hp
        rcases List.mem_append.mp hp with hp | hp
        · exact hfresh d' (List.mem_cons_of_mem d hd') p hp
        · rw [List.mem_singleton] at hp
          rw [hp]
          intro hc
          have hc' : d.roll = d'.roll := hc
          apply hnd.1
          rw [hc']
          exact List.mem_map.mpr ⟨d', hd', rfl⟩

/-- Under the dict invariants, the entry list is the values list paired
with its rolls. -/
theorem students_eq_map_values (gb : Gradebook)
    (hkey : ∀ p ∈ gb.students, p.1 = p.2.roll) :
    gb.students = (values gb).map (fun s => (s.roll, s)) := by
  unfold values
  rw [List.map_map]
  conv_lhs => rw [← List.map_id gb.students]
  apply List.map_congr_left
  intro p hp
  show p = (p.2.roll, p.2)
  rw [← hkey p hp]

/-- Claim C1: loading the document produced by saving a roster yields an
equivalent roster — every roll looks up to the identical record (same
name, same marks, numeric values exact), under the dict invariants the
gradebook maintains and with stored names already stripped (as every
constructor call guarantees). -/
theorem save_load_roundtrip (gb : Gradebook)
    (hnd : (gb.students.map (fun p => p.1)).Nodup)
    (hkey : ∀ p ∈ gb.students, p.1 = p.2.roll)
    (hname : ∀ p ∈ gb.students, pyStrip p.2.name = p.2.name) :
    ∀ r : Int,
      get_student (load_from_json { students := [] } (save_to_json gb)) r
        = get_student gb r := by
  intro r
  have hperm : (list_all gb).Perm (values gb) := List.perm_insertionSort rollLE _
  have hmapkeys : (values gb).map (fun s => s.roll) = gb.students.map (fun p => p.1) := by
    unfold values
    rw [List.map_map]
    apply List.map_congr_left
    intro p hp
    exact (hkey p hp).symm
  have hndv : ((values gb).map (fun s => s.roll)).Nodup := by
    rw [hmapkeys]
    exact hnd
  have hndl : ((list_all gb).map (fun s => s.roll)).Nodup :=
    ((hperm.map (fun s => s.roll)).nodup_iff).mpr hndv
  have hdocs : (save_to_json gb).map (fun d => d.roll)
      = (list_all gb).map (fun s => s.roll) := by
    unfold save_to_json
    rw [List.map_map]
    rfl
  have hload : (load_from_json { students := [] } (save_to_json gb)).students
      = (save_to_json gb).map (fun d => (d.roll, from_dict d)) := by
    rw [load_from_json_fresh _ _ (by rw [hdocs]; exact hndl) ?triv]
    · rw [List.nil_append]
    case triv =>
      intro d _ p hp
      simp at hp
  have hmapstu : (save_to_json gb).map (fun d => (d.roll, from_dict d))
      = (list_all gb).map (fun s => (s.roll, s)) := by
    unfold save_to_json
    rw [List.map_map]
    apply List.map_congr_left
    intro s hs
    have hsin : s ∈ values gb := (hperm.mem_iff).mp hs
    have hsgb : ∃ p ∈ gb.students, p.2 = s := by
      unfold values at hsin
      rcases List.mem_map.mp hsin with ⟨p, hp, hpe⟩
      exact ⟨p, hp, hpe⟩
    rcases hsgb with ⟨p, hp, hpe⟩
    show ((to_dict s).roll, from_dict (to_dict s)) = (s.roll, s)
    rw [from_dict_to_dict s (by rw [← hpe]; exact hname p hp)]
    rfl
  have hndPairs : (((list_all gb).map (fun s => (s.roll, s))).map (fun p => p.1)).Nodup := by
    rw [List.map_map]
    exact hndl
  unfold get_student
  rw [hload, hmapstu,
    dget_perm (hperm.map (fun s => (s.roll, s))) hndPairs r,
    ← students_eq_map_values gb hkey]

/-- Claim C1 witness: round-tripping the sample roster preserves the
lookup at roll 103. -/
theorem save_load_roundtrip_witness :
    get_student (load_from_json { students := [] } (save_to_json sample_data)) 103
      = get_student sample_data 103 :=
  save_load_roundtrip sample_data (by decide) (by decide) (by decide) 103

end Project1
